import Mathlib

/-!
Verification of the common-resolution convolution engine (`beamcon_3D.py`).

Shallow embedding conventions:
* machine floats carrying possibly-NaN values are modelled as `Option ℚ`
  (`none` = NaN/undefined); real pixel data is `ℚ`;
* fallible Python code (code that can raise) is modelled with `Except`/`Option`
  result types, or with an explicit `(state, Option error)` pair when the
  partial effects before the raise matter;
* external collaborators that are not part of this repository's source
  (scipy's convolution, the FITS store) enter as parameters; repository-level
  behaviour that the source delegates to libraries absent from the source tree
  (the Gaussian deconvolution solver, the beam scale factor) is modelled from
  the specification and marked as such in the doc comment.
-/

namespace Beamcon

/-- Embedding of `cpu_to_use(max_cpu, count)` (beamcon_3D.py lines 170-187):
collect `factors = [i for i in range(1, count+1) if count % i == 0]`, then
return `max(factors[factors <= max_cpu])`. -/
def cpu_to_use (max_cpu count : Nat) : Nat :=
  let factors := (List.range' 1 count).filter (fun i => count % i == 0)
  ((factors.filter (fun i => decide (i ≤ max_cpu))).foldl max 0)

/-- The accumulator is a lower bound of a `foldl max`. -/
theorem foldl_max_le_acc (l : List Nat) (a : Nat) : a ≤ l.foldl max a := by
  induction l generalizing a with
  | nil => exact le_refl a
  | cons x xs ih => exact le_trans (le_max_left a x) (ih (max a x))

/-- Every member of the list is a lower bound of a `foldl max`. -/
theorem le_foldl_max_of_mem {l : List Nat} {x : Nat} (h : x ∈ l) (a : Nat) :
    x ≤ l.foldl max a := by
  induction l generalizing a with
  | nil => cases h
  | cons y ys ih =>
    rcases List.mem_cons.mp h with rfl | hmem
    · exact le_trans (le_max_right a x) (foldl_max_le_acc ys (max a x))
    · exact ih hmem (max a y)

/-- A `foldl max` is the accumulator or a member of the list. -/
theorem foldl_max_eq_acc_or_mem (l : List Nat) (a : Nat) :
    l.foldl max a = a ∨ l.foldl max a ∈ l := by
  induction l generalizing a with
  | nil => exact Or.inl rfl
  | cons x xs ih =>
    rcases ih (max a x) with h | h
    · rcases Nat.le_total a x with hax | hxa
      · right
        rw [List.foldl_cons, h, max_eq_right hax]
        exact List.mem_cons_self x xs
      · left
        rw [List.foldl_cons, h, max_eq_left hxa]
    · exact Or.inr (List.mem_cons_of_mem x h)

/-- Membership in the filtered factor list of `cpu_to_use`:
exactly the divisors of `count` that lie in `[1, count]` and are `≤ max_cpu`. -/
theorem mem_cpu_factors {max_cpu count i : Nat} (hN : 1 ≤ count) :
    (i ∈ ((List.range' 1 count).filter (fun i => count % i == 0)).filter
        (fun i => decide (i ≤ max_cpu))) ↔ (i ∣ count ∧ 1 ≤ i ∧ i ≤ max_cpu) := by
  simp only [List.mem_filter, List.mem_range'_1, decide_eq_true_eq, beq_iff_eq]
  constructor
  · rintro ⟨⟨⟨h1, _⟩, hmod⟩, hle⟩
    exact ⟨Nat.dvd_iff_mod_eq_zero.mpr hmod, h1, hle⟩
  · rintro ⟨hdvd, h1, hle⟩
    refine ⟨⟨⟨h1, ?_⟩, Nat.dvd_iff_mod_eq_zero.mp hdvd⟩, hle⟩
    have := Nat.le_of_dvd hN hdvd
    omega

/-- `cpu_to_use` is at least 1 (1 is always an admissible factor). -/
theorem one_le_cpu_to_use {max_cpu count : Nat} (hW : 1 ≤ max_cpu) (hN : 1 ≤ count) :
    1 ≤ cpu_to_use max_cpu count := by
  unfold cpu_to_use
  exact le_foldl_max_of_mem ((mem_cpu_factors hN).mpr ⟨one_dvd count, le_refl 1, hW⟩) 0

/-- `cpu_to_use` is itself a member of the filtered factor list. -/
theorem cpu_to_use_mem {max_cpu count : Nat} (hW : 1 ≤ max_cpu) (hN : 1 ≤ count) :
    cpu_to_use max_cpu count ∣ count ∧ 1 ≤ cpu_to_use max_cpu count ∧
      cpu_to_use max_cpu count ≤ max_cpu := by
  have hpos := one_le_cpu_to_use hW hN
  have := foldl_max_eq_acc_or_mem
    (((List.range' 1 count).filter (fun i => count % i == 0)).filter
      (fun i => decide (i ≤ max_cpu))) 0
  rcases this with h | h
  · exfalso
    have : cpu_to_use max_cpu count = 0 := h
    omega
  · exact (mem_cpu_factors hN).mp h

/-- `cpu_to_use` dominates every divisor of `count` that is `≤ max_cpu`. -/
theorem cpu_to_use_max {max_cpu count d : Nat} (hN : 1 ≤ count)
    (hdvd : d ∣ count) (hle : d ≤ max_cpu) : d ≤ cpu_to_use max_cpu count := by
  rcases Nat.eq_zero_or_pos d with rfl | hd
  · exact Nat.zero_le _
  · exact le_foldl_max_of_mem ((mem_cpu_factors hN).mpr ⟨hdvd, hd, hle⟩) 0

/-- C1: for every channel count `N ≥ 1` and worker bound `W ≥ 1`,
`cpu_to_use W N` is the largest divisor of `N` not exceeding `W`: it divides
`N`, is `≤ W`, dominates every divisor `≤ W`; for `N` prime and `W < N` it is
`1`; and for `N = 10`, `W = 4` it is `2`, yielding `10 / 2 = 5` chunks. -/
theorem claim1_cpu_to_use (W N : Nat) (hW : 1 ≤ W) (hN : 1 ≤ N) :
    cpu_to_use W N ∣ N ∧ cpu_to_use W N ≤ W ∧
      (∀ d, d ∣ N → d ≤ W → d ≤ cpu_to_use W N) ∧
      (Nat.Prime N → W < N → cpu_to_use W N = 1) ∧
      cpu_to_use 4 10 = 2 ∧ 10 / cpu_to_use 4 10 = 5 := by
  obtain ⟨hdvd, hpos, hle⟩ := cpu_to_use_mem hW hN
  refine ⟨hdvd, hle, fun d hd hdW => cpu_to_use_max hN hd hdW, ?_, by decide, by decide⟩
  intro hp hWN
  rcases (Nat.Prime.eq_one_or_self_of_dvd hp _ hdvd) with h1 | hN'
  · exact h1
  · omega

/-- Witness for C1 at `W = 4`, `N = 10`. -/
theorem claim1_witness :
    cpu_to_use 4 10 ∣ 10 ∧ cpu_to_use 4 10 ≤ 4 :=
  ⟨(claim1_cpu_to_use 4 10 (by decide) (by decide)).1,
   (claim1_cpu_to_use 4 10 (by decide) (by decide)).2.1⟩

/-- Embedding of the per-cube chunk loop (beamcon_3D.py lines 322-358):
`width = cpu_to_use(width_max, cube.shape[0])`, `n_chunks = cube.shape[0]//width`,
and for `i in trange(n_chunks)`: `start = i*width`, `stop = start+width`. -/
def chunkList (nchan width : Nat) : List (Nat × Nat) :=
  (List.range (nchan / width)).map (fun i => (i * width, i * width + width))

/-- Embedding of the shared-buffer shape (lines 328-329 and 341-342):
`outshape = list(cube.shape); outshape[0] = width` (same for `inshape`). -/
def bufshape (shape : List Nat) (width : Nat) : List Nat := shape.set 0 width

/-- Concatenating the half-open ranges `[i*w, i*w + w)` for `i < m` tiles
`[0, m*w)` in order. -/
theorem range_flatMap_chunks (w m : Nat) :
    (List.range m).flatMap (fun i => List.range' (i * w) w) = List.range (m * w) := by
  induction m with
  | zero => simp
  | succ m ih =>
    rw [List.range_succ, List.flatMap_append, ih]
    simp only [List.flatMap_cons, List.flatMap_nil, List.append_nil]
    rw [Nat.succ_mul, List.range_add, List.range'_eq_map_range]

/-- C10: with `w = cpu_to_use W N`, the executor iterates exactly `N / w`
chunks `[i*w, (i+1)*w)` with strictly increasing start indices; every chunk has
width exactly `w`; the chunks tile `[0, N)` in order with no overlap and no
remainder; and the shared buffers keep the single shape `[w, height, width]`
for the whole cube. -/
theorem claim10_chunk_execution (W N H V : Nat) (hW : 1 ≤ W) (hN : 1 ≤ N) :
    (chunkList N (cpu_to_use W N)).length = N / cpu_to_use W N ∧
      List.Pairwise (fun a b => a.1 < b.1) (chunkList N (cpu_to_use W N)) ∧
      (∀ c ∈ chunkList N (cpu_to_use W N), c.2 - c.1 = cpu_to_use W N) ∧
      (chunkList N (cpu_to_use W N)).flatMap
          (fun c => List.range' c.1 (cpu_to_use W N)) = List.range N ∧
      bufshape [N, H, V] (cpu_to_use W N) = [cpu_to_use W N, H, V] := by
  obtain ⟨hdvd, hpos, _⟩ := cpu_to_use_mem hW hN
  refine ⟨by simp [chunkList], ?_, ?_, ?_, rfl⟩
  · unfold chunkList
    refine List.Pairwise.map _ ?_ (List.pairwise_lt_range _)
    intro a b hab
    exact (Nat.mul_lt_mul_right hpos).mpr hab
  · intro c hc
    unfold chunkList at hc
    rcases List.mem_map.mp hc with ⟨i, _, rfl⟩
    omega
  · unfold chunkList
    rw [List.flatMap_map]
    have := range_flatMap_chunks (cpu_to_use W N) (N / cpu_to_use W N)
    rw [Nat.div_mul_cancel hdvd] at this
    exact this

/-- Witness for C10 at `W = 4`, `N = 10`, image shape `3 × 7`. -/
theorem claim10_witness :
    (chunkList 10 (cpu_to_use 4 10)).flatMap
        (fun c => List.range' c.1 (cpu_to_use 4 10)) = List.range 10 :=
  (claim10_chunk_execution 4 10 3 7 (by decide) (by decide)).2.2.2.1

/-- One row of a beamlog table (`getbeams` column layout
`BMAJarcsec, BMINarcsec, BPAdeg`), values in arcsec/deg; `none` models NaN. -/
structure BeamRec where
  bmaj : Option ℚ
  bmin : Option ℚ
  bpa : Option ℚ
deriving DecidableEq, Repr

/-- The fully-undefined beam row written by the masking pass
(`beams[...][i][totalmask] = np.nan` for all three columns, lines 257-259). -/
def nanBeam : BeamRec := ⟨none, none, none⟩

/-- Pointwise sum of two equal-length integer vectors (numpy array `+`). -/
def vecAdd (a b : List Nat) : List Nat := List.zipWith (· + ·) a b

/-- Embedding of `sum(masks)` (line 254) over per-cube boolean flag vectors of
common length `n`: Python `sum` folds `+` left-to-right from `0`, and numpy
broadcasts the initial scalar `0` to the zero vector. -/
def masksum (n : Nat) (masks : List (List Bool)) : List Nat :=
  masks.foldl (fun acc m => vecAdd acc (m.map Bool.toNat)) (List.replicate n 0)

/-- Embedding of `totalmask = sum(masks) > 0` (line 254). -/
def totalmask (n : Nat) (masks : List (List Bool)) : List Bool :=
  (masksum n masks).map (fun s => decide (0 < s))

/-- Embedding of the masking pass on one cube's beam table (lines 256-259):
entries at indices where `totalmask` is true are overwritten with NaN in all
three columns. -/
def applyMask (beams : List BeamRec) (tm : List Bool) : List BeamRec :=
  List.zipWith (fun b t => if t then nanBeam else b) beams tm

theorem vecAdd_length (a b : List Nat) : (vecAdd a b).length = min a.length b.length :=
  List.length_zipWith ..

theorem masksum_foldl_length (masks : List (List Bool)) (acc : List Nat)
    (hlen : ∀ m ∈ masks, m.length = acc.length) :
    (masks.foldl (fun acc m => vecAdd acc (m.map Bool.toNat)) acc).length = acc.length := by
  induction masks generalizing acc with
  | nil => rfl
  | cons m ms ih =>
    have hm : m.length = acc.length := hlen m (List.mem_cons_self m ms)
    have hacc : (vecAdd acc (m.map Bool.toNat)).length = acc.length := by
      rw [vecAdd_length, List.length_map, hm, Nat.min_self]
    rw [List.foldl_cons, ih _ (fun x hx => by rw [hacc]; exact hlen x (List.mem_cons_of_mem m hx)),
      hacc]

theorem vecAdd_getD (a b : List Nat) (c : Nat) (hca : c < a.length) (hcb : c < b.length) :
    (vecAdd a b).getD c 0 = a.getD c 0 + b.getD c 0 := by
  have hc : c < (vecAdd a b).length := by rw [vecAdd_length]; omega
  rw [List.getD_eq_getElem _ _ hc, List.getD_eq_getElem _ _ hca, List.getD_eq_getElem _ _ hcb]
  exact List.getElem_zipWith ..

theorem masksum_foldl_getD (masks : List (List Bool)) (acc : List Nat) (c : Nat)
    (hlen : ∀ m ∈ masks, m.length = acc.length) (hc : c < acc.length) :
    (masks.foldl (fun acc m => vecAdd acc (m.map Bool.toNat)) acc).getD c 0 =
      acc.getD c 0 + (masks.map (fun m => (m.getD c false).toNat)).sum := by
  induction masks generalizing acc with
  | nil => simp
  | cons m ms ih =>
    have hm : m.length = acc.length := hlen m (List.mem_cons_self m ms)
    have hacc : (vecAdd acc (m.map Bool.toNat)).length = acc.length := by
      rw [vecAdd_length, List.length_map, hm, Nat.min_self]
    rw [List.foldl_cons,
      ih _ (fun x hx => by rw [hacc]; exact hlen x (List.mem_cons_of_mem m hx)) (by omega),
      vecAdd_getD _ _ _ hc (by rw [List.length_map]; omega), List.map_cons, List.sum_cons]
    have : (m.map Bool.toNat).getD c 0 = (m.getD c false).toNat := by
      have hcm : c < m.length := by omega
      rw [List.getD_eq_getElem _ _ (by rw [List.length_map]; exact hcm),
        List.getD_eq_getElem _ _ hcm, List.getElem_map]
    rw [this]
    ring

theorem totalmask_length (n : Nat) (masks : List (List Bool))
    (hlen : ∀ m ∈ masks, m.length = n) : (totalmask n masks).length = n := by
  unfold totalmask masksum
  rw [List.length_map, masksum_foldl_length _ _ (by simpa using hlen), List.length_replicate]

theorem totalmask_getD (n : Nat) (masks : List (List Bool)) (c : Nat)
    (hlen : ∀ m ∈ masks, m.length = n) (hc : c < n) :
    (totalmask n masks).getD c false =
      decide (0 < (masks.map (fun m => (m.getD c false).toNat)).sum) := by
  unfold totalmask masksum
  have hlen' : ∀ m ∈ masks, m.length = (List.replicate n (0 : Nat)).length := by
    simpa using hlen
  have hl := masksum_foldl_length masks (List.replicate n 0) hlen'
  have hc' : c < (masks.foldl (fun acc m => vecAdd acc (m.map Bool.toNat))
      (List.replicate n 0)).length := by rw [hl]; simpa using hc
  rw [List.getD_eq_getElem _ _ (by rw [List.length_map]; exact hc'), List.getElem_map]
  have := masksum_foldl_getD masks (List.replicate n 0) c hlen' (by simpa using hc)
  rw [List.getD_eq_getElem _ _ hc'] at this
  rw [this]
  simp

/-- C5: the run-level validity mask is the OR over all cubes of the per-channel
missing-data flags, and applying the unioned mask overwrites the beam entry at
a masked channel with NaN in every cube: if any one cube's flag vector marks
channel `c`, then `totalmask` marks `c` and `applyMask` yields the all-NaN beam
row at `c` for every cube's beam table. -/
theorem claim5_mask_union_applied (n : Nat) (masks : List (List Bool))
    (mj : List Bool) (c : Nat) (beams : List BeamRec)
    (hlen : ∀ m ∈ masks, m.length = n) (hmj : mj ∈ masks) (hc : c < n)
    (hflag : mj.getD c false = true) (hb : beams.length = n) :
    (totalmask n masks).getD c false = true ∧
      (applyMask beams (totalmask n masks))[c]? = some nanBeam := by
  have hsum : 0 < (masks.map (fun m => (m.getD c false).toNat)).sum := by
    have hmem : (mj.getD c false).toNat ∈ masks.map (fun m => (m.getD c false).toNat) :=
      List.mem_map_of_mem _ hmj
    have := List.single_le_sum (l := masks.map (fun m => (m.getD c false).toNat))
      (fun x _ => Nat.zero_le x) _ hmem
    rw [hflag] at this
    exact this
  have htm : (totalmask n masks).getD c false = true := by
    rw [totalmask_getD n masks c hlen hc]
    simpa using hsum
  refine ⟨htm, ?_⟩
  have htl := totalmask_length n masks hlen
  have hcz : c < (applyMask beams (totalmask n masks)).length := by
    have hlz : (applyMask beams (totalmask n masks)).length = n := by
      unfold applyMask
      rw [List.length_zipWith, hb, htl, Nat.min_self]
    exact lt_of_lt_of_eq hc hlz.symm
  rw [List.getElem?_eq_getElem hcz]
  unfold applyMask
  rw [List.getElem_zipWith]
  have : (totalmask n masks)[c] = true := by
    rw [← List.getD_eq_getElem _ false (lt_of_lt_of_eq hc htl.symm)]
    exact htm
  rw [this]
  simp

/-- Witness for C5: two cubes of five channels, channel 2 flagged missing in
the first cube only; the second cube's beam table gets NaN at channel 2. -/
theorem claim5_witness :
    (totalmask 5 [[false, false, true, false, false],
        [false, false, false, false, false]]).getD 2 false = true ∧
      (applyMask [⟨some 10, some 8, some 0⟩, ⟨some 10, some 8, some 0⟩,
          ⟨some 10, some 8, some 0⟩, ⟨some 10, some 8, some 0⟩, ⟨some 10, some 8, some 0⟩]
        (totalmask 5 [[false, false, true, false, false],
          [false, false, false, false, false]]))[2]? = some nanBeam :=
  claim5_mask_union_applied 5
    [[false, false, true, false, false], [false, false, false, false, false]]
    [false, false, true, false, false] 2
    [⟨some 10, some 8, some 0⟩, ⟨some 10, some 8, some 0⟩, ⟨some 10, some 8, some 0⟩,
      ⟨some 10, some 8, some 0⟩, ⟨some 10, some 8, some 0⟩]
    (by decide) (by decide) (by decide) (by decide) (by decide)

theorem dup_flatMap_sum (masks : List (List Bool)) (g : List Bool → Nat) :
    ((masks.flatMap (fun m => [m, m])).map g).sum = 2 * (masks.map g).sum := by
  induction masks with
  | nil => simp
  | cons m ms ih =>
    rw [List.flatMap_cons, List.map_append, List.sum_append, ih, List.map_cons, List.sum_cons]
    simp
    ring

/-- C9: the validity union `sum(masks) > 0` is idempotent under repetition:
aggregating the mask list with every mask included twice yields the same
unioned mask as aggregating each mask once. -/
theorem claim9_union_idempotent (n : Nat) (masks : List (List Bool))
    (hlen : ∀ m ∈ masks, m.length = n) :
    totalmask n (masks.flatMap (fun m => [m, m])) = totalmask n masks := by
  have hlen2 : ∀ m ∈ masks.flatMap (fun m => [m, m]), m.length = n := by
    intro m hm
    rcases List.mem_flatMap.mp hm with ⟨x, hx, hmx⟩
    rcases List.mem_cons.mp hmx with rfl | hmx'
    · exact hlen _ hx
    · rcases List.mem_cons.mp hmx' with rfl | h
      · exact hlen _ hx
      · cases h
  apply List.ext_getElem
  · rw [totalmask_length n _ hlen2, totalmask_length n masks hlen]
  · intro c h1 h2
    have hc : c < n := by rw [totalmask_length n masks hlen] at h2; exact h2
    rw [← List.getD_eq_getElem _ false h1, ← List.getD_eq_getElem _ false h2,
      totalmask_getD n _ c hlen2 hc, totalmask_getD n masks c hlen hc,
      dup_flatMap_sum masks (fun m => (m.getD c false).toNat)]
    rcases Nat.eq_zero_or_pos ((masks.map (fun m => (m.getD c false).toNat)).sum) with h | h
    · rw [h]
    · have : 0 < 2 * (masks.map (fun m => (m.getD c false).toNat)).sum := by omega
      simp [this, h]

/-- Witness for C9 on a concrete two-mask list of length 3. -/
theorem claim9_witness :
    totalmask 3 ([[true, false, false], [false, false, true]].flatMap (fun m => [m, m])) =
      totalmask 3 [[true, false, false], [false, false, true]] :=
  claim9_union_idempotent 3 [[true, false, false], [false, false, true]] (by decide)

/-- Convolving-kernel beam, carried through the plan as squared axis lengths
(arcsec²) plus a position angle, so the closed-form Gaussian variance
subtraction stays rational. -/
structure GKernel where
  majSq : ℚ
  minSq : ℚ
  pa : ℚ
deriving DecidableEq, Repr

/-- Modelled from the spec: the Gaussian deconvolution solver
(`radio_beam.Beam.deconvolve`, called by `getfacs` at line 131) is not under
`src/`. Per §4.1/§3/§8 of the specification: an undefined (NaN) native beam
yields an undefined result; deconvolution is closed-form elliptical-Gaussian
variance subtraction, feasible exactly when both target axes dominate the
native beam's major axis (§3 enforces both target-beam bounds against the
source *major* axis, the most elongated direction); infeasibility — in
particular `T.major < B.major` — yields undefined/NaN and never raises. -/
def deconvolve (target native : BeamRec) : Option GKernel :=
  match target.bmaj, target.bmin, target.bpa, native.bmaj, native.bmin, native.bpa with
  | some tM, some tm, some tp, some bM, some bm, some _ =>
    if bM ≤ tM ∧ bM ≤ tm then some ⟨tM ^ 2 - bM ^ 2, tm ^ 2 - bm ^ 2, tp⟩ else none
  | _, _, _, _, _, _ => none

/-- Modelled from the spec: `au2.gauss_factor` (called by `getfacs` at
line 132) is not under `src/`. §4.1: the amplitude factor accounts for the
ratio of the target-beam solid angle to the convolution-normalized output;
only its definedness (NaN in, NaN out) is constrained by the claims, and the
ratio is modelled by the kernel variance product over the pixel area. -/
def gauss_factor (k : GKernel) (_beamOrig : BeamRec) (dx dy : ℚ) : ℚ :=
  (k.majSq * k.minSq) / (dx * dy)

/-- Embedding of `getfacs(datadict, new_beam)` (beamcon_3D.py lines 123-148):
for each `oldbeam` in the cube's beam list, deconvolve the target beam against
it and compute the scale factor; an undefined (NaN) convolving beam makes the
factor NaN as well. Both per-channel results are collected as data — the
return type has no error alternative. -/
def getfacs (oldbeams : List BeamRec) (new_beam : BeamRec) (dx dy : ℚ) :
    List (Option GKernel) × List (Option ℚ) :=
  (oldbeams.map (fun ob => deconvolve new_beam ob),
   oldbeams.map (fun ob => (deconvolve new_beam ob).map (fun k => gauss_factor k ob dx dy)))

/-- C2: if the target beam's major axis is smaller than a channel's native
major axis, the convolution plan computed by `getfacs` carries an undefined
(NaN) kernel and an undefined (NaN) factor at that channel, and every channel
still receives an entry (infeasibility is absorbed as data, never raised). -/
theorem claim2_infeasible_deconvolution_is_nan (oldbeams : List BeamRec)
    (nb : BeamRec) (dx dy : ℚ) (i : Nat) (tM bM : ℚ) (hi : i < oldbeams.length)
    (htM : nb.bmaj = some tM) (hbM : (oldbeams[i]).bmaj = some bM) (hlt : tM < bM) :
    (getfacs oldbeams nb dx dy).1[i]? = some none ∧
      (getfacs oldbeams nb dx dy).2[i]? = some none ∧
      (getfacs oldbeams nb dx dy).1.length = oldbeams.length ∧
      (getfacs oldbeams nb dx dy).2.length = oldbeams.length := by
  have hdec : deconvolve nb oldbeams[i] = none := by
    unfold deconvolve
    rw [htM, hbM]
    cases nb.bmin with
    | none => rfl
    | some tm =>
      cases nb.bpa with
      | none => rfl
      | some tp =>
        cases (oldbeams[i]).bmin with
        | none => rfl
        | some bm =>
          cases (oldbeams[i]).bpa with
          | none => rfl
          | some bp =>
            simp only [ite_eq_right_iff]
            rintro ⟨h1, -⟩
            exact absurd h1 (not_le.mpr hlt)
  refine ⟨?_, ?_, by simp [getfacs], by simp [getfacs]⟩
  · unfold getfacs
    rw [List.getElem?_map, List.getElem?_eq_getElem hi]
    simp [hdec]
  · unfold getfacs
    rw [List.getElem?_map, List.getElem?_eq_getElem hi]
    simp [hdec]

/-- Witness for C2: a single-channel beam list with native major 10 arcsec and
a target major of 5 arcsec. -/
theorem claim2_witness :
    (getfacs [⟨some 10, some 8, some 0⟩] ⟨some 5, some 5, some 0⟩ 1 1).1[0]? = some none ∧
      (getfacs [⟨some 10, some 8, some 0⟩] ⟨some 5, some 5, some 0⟩ 1 1).2[0]? = some none :=
  ⟨(claim2_infeasible_deconvolution_is_nan [⟨some 10, some 8, some 0⟩]
      ⟨some 5, some 5, some 0⟩ 1 1 0 5 10 (by decide) rfl rfl (by norm_num)).1,
   (claim2_infeasible_deconvolution_is_nan [⟨some 10, some 8, some 0⟩]
      ⟨some 5, some 5, some 0⟩ 1 1 0 5 10 (by decide) rfl rfl (by norm_num)).2.1⟩

/-- Embedding of `smooth(image, dy, conbeam, sfactor)` (lines 151-167): an
undefined (NaN) convolving beam returns `image * nan` — the same-shape
all-NaN image — otherwise the image is convolved with the discretized,
peak-normalized kernel ("same" mode) and scaled by `sfactor`. The external
scipy convolution together with the kernel discretization enters as the
`convolve` parameter; output pixels are `Option ℚ` (`none` = NaN). -/
def smooth (convolve : List (List ℚ) → GKernel → ℚ → List (List ℚ))
    (image : List (List ℚ)) (dy : ℚ) (conbeam : Option GKernel)
    (sfactor : Option ℚ) : List (List (Option ℚ)) :=
  match conbeam with
  | none => image.map (fun row => row.map (fun _ => (none : Option ℚ)))
  | some k =>
    (convolve image k dy).map (fun row => row.map (fun v => sfactor.map (fun s => v * s)))

/-- Embedding of `worker(idx, start)` (lines 190-193): smooth the input
buffer's slice `idx` using the plan entries at global channel `start + idx`,
and store the result in slice `idx` of the output buffer. Out-of-range
indexing (a Python `IndexError`) is modelled as `none`. -/
def worker (convolve : List (List ℚ) → GKernel → ℚ → List (List ℚ))
    (conbeams : List (Option GKernel)) (sfactors : List (Option ℚ)) (dy : ℚ)
    (arr_in : List (List (List ℚ))) (arr_out : List (List (List (Option ℚ))))
    (idx start : Nat) : Option (List (List (List (Option ℚ)))) := do
  let img ← arr_in[idx]?
  let cb ← conbeams[start + idx]?
  let sf ← sfactors[start + idx]?
  if idx < arr_out.length then
    some (arr_out.set idx (smooth convolve img dy cb sf))
  else none

/-- C3: a channel whose plan kernel is undefined (NaN) makes `smooth` return
an image of the same shape with every pixel NaN, raising no error, and the
worker writes that all-NaN image into its own slice of the output buffer. -/
theorem claim3_nan_plan_gives_nan_slice
    (convolve : List (List ℚ) → GKernel → ℚ → List (List ℚ))
    (conbeams : List (Option GKernel)) (sfactors : List (Option ℚ)) (dy : ℚ)
    (arr_in : List (List (List ℚ))) (arr_out : List (List (List (Option ℚ))))
    (idx start : Nat) (img : List (List ℚ)) (sf : Option ℚ)
    (hin : arr_in[idx]? = some img)
    (hcb : conbeams[start + idx]? = some none)
    (hsf : sfactors[start + idx]? = some sf)
    (hout : idx < arr_out.length) :
    worker convolve conbeams sfactors dy arr_in arr_out idx start =
        some (arr_out.set idx
          (img.map (fun row => row.map (fun _ => (none : Option ℚ))))) ∧
      List.Forall₂ (fun (r : List ℚ) (s : List (Option ℚ)) =>
          s.length = r.length ∧ ∀ x ∈ s, x = none)
        img (smooth convolve img dy none sf) := by
  constructor
  · simp [worker, hin, hcb, hsf, hout, smooth]
  · unfold smooth
    rw [List.forall₂_map_right_iff, List.forall₂_same]
    intro r _
    exact ⟨List.length_map .., by intro x hx; rcases List.mem_map.mp hx with ⟨-, -, rfl⟩; rfl⟩

/-- Witness for C3: a 2×2 image, a one-entry plan whose kernel is NaN. -/
theorem claim3_witness :
    worker (fun im _ _ => im) [none] [some 1] 1 [[[1, 2], [3, 4]]]
        [[[some 0, some 0], [some 0, some 0]]] 0 0 =
      some [[[none, none], [none, none]]] :=
  (claim3_nan_plan_gives_nan_slice (fun im _ _ => im) [none] [some 1] 1
    [[[1, 2], [3, 4]]] [[[some 0, some 0], [some 0, some 0]]] 0 0
    [[1, 2], [3, 4]] (some 1) rfl rfl rfl (by decide)).1

/-- The target-beam arguments of the command surface (`args.bmaj`,
`args.bmin`, `args.bpa`; `none` = not supplied). -/
structure MArgs where
  bmaj : Option ℚ
  bmin : Option ℚ
  bpa : Option ℚ
deriving DecidableEq, Repr

/-- One input cube as `main` sees it: its beamlog rows, its per-channel
missing-data flags sampled at the central spatial pixel, and the length of
its channel axis (`cube.shape[0]`). -/
structure MCube where
  beams : List BeamRec
  missing : List Bool
  shape0 : Nat
deriving DecidableEq, Repr

/-- Embedding of `round_up(n)` at `decimals=0` (lines 105-107):
`ceil(n * 1) / 1`. -/
def roundUp (q : ℚ) : ℚ := (⌈q⌉ : ℚ)

/-- A fully-defined beam (major, minor, position angle). -/
structure ValidBeam where
  major : ℚ
  minor : ℚ
  pa : ℚ
deriving DecidableEq, Repr

/-- A beamlog row viewed as a fully-defined beam, `none` if any field is NaN. -/
def definedBeam (b : BeamRec) : Option ValidBeam :=
  match b.bmaj, b.bmin, b.bpa with
  | some M, some m, some p => some ⟨M, m, p⟩
  | _, _, _ => none

/-- Modelled from the spec: `radio_beam.Beams.largest_beam` (line 269) is not
under `src/`. §3 derives the TargetBeam minimum from the valid per-channel
beams; we model the largest beam of a list as the fully-defined row with the
greatest major axis (first such row on ties), and `none` when no valid beam
exists — §4.2's fatal "nothing to smooth to" configuration. -/
def largest_beam (bs : List BeamRec) : Option ValidBeam :=
  (bs.filterMap definedBeam).foldl
    (fun acc b =>
      match acc with
      | none => some b
      | some a => if a.major < b.major then some b else some a)
    none

/-- Embedding of the target-beam construction (lines 272-299): `bpa` defaults
to the big beam's angle only when `bpa` is omitted while both `bmaj` and
`bmin` are supplied, and is `0` in every other case — including the case
where the user supplied an explicit `bpa`, whose value is never read; a
supplied `bmaj`/`bmin` below `round_up(big_beam.major)` raises; an omitted
`bmaj`/`bmin` defaults to `round_up(big_beam.major)`. -/
def new_beam_of (args : MArgs) (big : ValidBeam) : Except String ValidBeam :=
  let bpa : ℚ :=
    if args.bpa = none ∧ args.bmin ≠ none ∧ args.bmaj ≠ none then big.pa else 0
  match args.bmaj with
  | some v =>
    if v < roundUp big.major then .error "Selected BMAJ is too small!"
    else
      match args.bmin with
      | some u =>
        if u < roundUp big.major then .error "Selected BMIN is too small!"
        else .ok ⟨v, u, bpa⟩
      | none => .ok ⟨v, roundUp big.major, bpa⟩
  | none =>
    match args.bmin with
    | some u =>
      if u < roundUp big.major then .error "Selected BMIN is too small!"
      else .ok ⟨roundUp big.major, u, bpa⟩
    | none => .ok ⟨roundUp big.major, roundUp big.major, bpa⟩

/-- One write of channel data into an output file (lines 373-375):
`outfh[0].data[start:stop, 0, :, :] = arr_out[:]` for a given cube. -/
structure WriteEv where
  cube : Nat
  start : Nat
  stop : Nat
deriving DecidableEq, Repr

/-- The channel-data writes performed for one cube (lines 319-375): chunk
width from `cpu_to_use`, one write per chunk. -/
def processCube (n_cores : Nat) (idx : Nat) (c : MCube) : List WriteEv :=
  (chunkList c.shape0 (cpu_to_use n_cores c.shape0)).map (fun ch => ⟨idx, ch.1, ch.2⟩)

/-- Embedding of `all(elem == nchans[0] for elem in nchans)` (line 263). -/
def allEqual (l : List Nat) : Bool := l.all (fun e => e == l.headD 0)

/-- The pre-execution stages of `main` (lines 222-299): file discovery check,
mask union over the per-cube missing flags (`sum(masks) > 0` requires the
flag vectors to share one length, or numpy fails to broadcast), the masking
pass over every cube's beam table (stacking and boolean-index assignment
require every beam table to have the mask's length, or numpy raises), the
explicit channel-count equality check, the largest-beam selection and the
target-beam construction. Any error here precedes all channel-data writes. -/
def mainPlan (cubes : List MCube) (args : MArgs) : Except String (List MCube × ValidBeam) :=
  if cubes.isEmpty then .error "No files found!"
  else
    let masks := cubes.map (fun c => c.missing)
    let n := (masks.headD []).length
    if masks.any (fun m => m.length != n) then
      .error "operands could not be broadcast together"
    else
      let tm := totalmask n masks
      if cubes.any (fun c => c.beams.length != n) then
        .error "beam tables could not be stacked"
      else
        let cubes2 := cubes.map (fun c => { c with beams := applyMask c.beams tm })
        if !allEqual (cubes.map (fun c => c.beams.length)) then
          .error "Unequal channel count in beamlogs!"
        else
          match largest_beam (cubes2.flatMap (fun c => c.beams)) with
          | none => .error "no valid beam to target"
          | some big =>
            match new_beam_of args big with
            | .error e => .error e
            | .ok nb => .ok (cubes2, nb)

/-- Embedding of `main` as a trace of channel-data writes plus an optional
fatal error: all writes happen in the per-cube chunk loop, which runs only
after every stage of `mainPlan` has succeeded. -/
def mainRun (cubes : List MCube) (args : MArgs) (n_cores : Nat) :
    List WriteEv × Option String :=
  match mainPlan cubes args with
  | .error e => ([], some e)
  | .ok (cubes2, _) =>
    (cubes2.enum.flatMap (fun p => processCube n_cores p.1 p.2), none)

theorem allEqual_of_const {l : List Nat} {n : Nat} (hne : l ≠ [])
    (h : ∀ x ∈ l, x = n) : allEqual l = true := by
  unfold allEqual
  rw [List.all_eq_true]
  intro e he
  have hh : l.headD 0 = n := by
    cases l with
    | nil => exact absurd rfl hne
    | cons a t => simpa using h a (List.mem_cons_self a t)
  rw [h e he, hh]
  simp

/-- C6: if the per-cube beam tables do not all report the same channel count,
the run ends in a fatal error with no channel-data write; target-beam
selection and convolution are never reached. -/
theorem claim6_unequal_channel_counts_fatal (cubes : List MCube) (args : MArgs)
    (n_cores : Nat) (hne : allEqual (cubes.map (fun c => c.beams.length)) = false) :
    ∃ msg, mainRun cubes args n_cores = ([], some msg) := by
  have hplan : ∃ msg, mainPlan cubes args = .error msg := by
    unfold mainPlan
    cases hE : cubes.isEmpty with
    | true =>
      rw [List.isEmpty_iff] at hE
      subst hE
      simp [allEqual] at hne
    | false =>
      simp only [hE, Bool.false_eq_true, if_false]
      by_cases h1 : ((cubes.map (fun c => c.missing)).any
          (fun m => m.length != ((cubes.map (fun c => c.missing)).headD []).length)) = true
      · rw [if_pos h1]
        exact ⟨_, rfl⟩
      · rw [if_neg h1]
        by_cases h2 : (cubes.any (fun c =>
            c.beams.length != ((cubes.map (fun c => c.missing)).headD []).length)) = true
        · rw [if_pos h2]
          exact ⟨_, rfl⟩
        · exfalso
          rw [Bool.not_eq_true, List.any_eq_false] at h2
          have hconst : ∀ x ∈ cubes.map (fun c => c.beams.length),
              x = ((cubes.map (fun c => c.missing)).headD []).length := by
            intro x hx
            rcases List.mem_map.mp hx with ⟨c, hc, rfl⟩
            have := h2 c hc
            simpa using this
          have hnonempty : cubes.map (fun c => c.beams.length) ≠ [] := by
            intro hcon
            rw [List.map_eq_nil_iff] at hcon
            subst hcon
            simp at hE
          rw [allEqual_of_const hnonempty hconst] at hne
          cases hne
  obtain ⟨msg, hm⟩ := hplan
  exact ⟨msg, by unfold mainRun; rw [hm]⟩

/-- Witness for C6: two cubes whose beam tables report 2 and 1 channels. -/
theorem claim6_witness :
    ∃ msg, mainRun
        [⟨[⟨some 10, some 8, some 0⟩, ⟨some 10, some 8, some 0⟩], [false, false], 2⟩,
         ⟨[⟨some 10, some 8, some 0⟩], [false, false], 2⟩]
        ⟨none, none, none⟩ 1 = ([], some msg) :=
  claim6_unequal_channel_counts_fatal
    [⟨[⟨some 10, some 8, some 0⟩, ⟨some 10, some 8, some 0⟩], [false, false], 2⟩,
     ⟨[⟨some 10, some 8, some 0⟩], [false, false], 2⟩]
    ⟨none, none, none⟩ 1 (by decide)

/-- C4: an explicitly requested target-beam major or minor axis below the
minimum derived from the data (the rounded-up largest valid native-beam major
axis) makes the run abort with the corresponding fatal error and an empty
write trace — before any convolution work or channel-data write. -/
theorem claim4_small_target_beam_aborts (cubes : List MCube) (args : MArgs)
    (n_cores n : Nat) (big : ValidBeam)
    (hne : cubes ≠ [])
    (hn0 : ((cubes.map (fun c => c.missing)).headD []).length = n)
    (hmask : ∀ c ∈ cubes, c.missing.length = n)
    (hbeam : ∀ c ∈ cubes, c.beams.length = n)
    (hbig : largest_beam ((cubes.map (fun c =>
        { c with beams := applyMask c.beams (totalmask n (cubes.map (fun k : MCube => k.missing))) })).flatMap
        (fun c => c.beams)) = some big)
    (hfail : (∃ v, args.bmaj = some v ∧ v < roundUp big.major) ∨
        ((∀ u, args.bmaj = some u → roundUp big.major ≤ u) ∧
          ∃ v, args.bmin = some v ∧ v < roundUp big.major)) :
    mainRun cubes args n_cores = ([], some "Selected BMAJ is too small!") ∨
      mainRun cubes args n_cores = ([], some "Selected BMIN is too small!") := by
  have hE : cubes.isEmpty = false := by
    cases cubes with
    | nil => exact absurd rfl hne
    | cons a t => rfl
  have h1 : ((cubes.map (fun c => c.missing)).any
      (fun m => m.length != ((cubes.map (fun c => c.missing)).headD []).length)) = false := by
    rw [List.any_eq_false]
    intro m hm
    rcases List.mem_map.mp hm with ⟨c, hc, rfl⟩
    intro hcon
    rw [bne_iff_ne] at hcon
    exact hcon ((hmask c hc).trans hn0.symm)
  have h2 : (cubes.any (fun c =>
      c.beams.length != ((cubes.map (fun c => c.missing)).headD []).length)) = false := by
    rw [List.any_eq_false]
    intro c hc
    intro hcon
    rw [bne_iff_ne] at hcon
    exact hcon ((hbeam c hc).trans hn0.symm)
  have h3 : allEqual (cubes.map (fun c => c.beams.length)) = true := by
    refine allEqual_of_const (n := n) ?_ ?_
    · intro hcon
      rw [List.map_eq_nil_iff] at hcon
      exact hne hcon
    · intro x hx
      rcases List.mem_map.mp hx with ⟨c, hc, rfl⟩
      exact hbeam c hc
  have hnb : new_beam_of args big = .error "Selected BMAJ is too small!" ∨
      new_beam_of args big = .error "Selected BMIN is too small!" := by
    rcases hfail with ⟨v, hv, hlt⟩ | ⟨hmaj, v, hv, hlt⟩
    · left
      unfold new_beam_of
      rw [hv]
      simp [hlt]
    · right
      unfold new_beam_of
      cases hm : args.bmaj with
      | some u =>
        have hug := hmaj u hm
        rw [hv]
        simp [not_lt.mpr hug, hlt]
      | none =>
        rw [hv]
        simp [hlt]
  have hplan : mainPlan cubes args = .error "Selected BMAJ is too small!" ∨
      mainPlan cubes args = .error "Selected BMIN is too small!" := by
    unfold mainPlan
    simp only [hE, Bool.false_eq_true, if_false, h1, h2, h3, Bool.not_true]
    rw [hn0, hbig]
    rcases hnb with h | h
    · left
      simp [h]
    · right
      simp [h]
  rcases hplan with h | h
  · left
    unfold mainRun
    rw [h]
  · right
    unfold mainRun
    rw [h]

/-- Witness for C4: one single-channel cube with native beam 10×8 arcsec and
a requested 5-arcsec BMAJ. -/
theorem claim4_witness :
    mainRun [⟨[⟨some 10, some 8, some 0⟩], [false], 1⟩] ⟨some 5, none, none⟩ 1 =
        ([], some "Selected BMAJ is too small!") ∨
      mainRun [⟨[⟨some 10, some 8, some 0⟩], [false], 1⟩] ⟨some 5, none, none⟩ 1 =
        ([], some "Selected BMIN is too small!") :=
  claim4_small_target_beam_aborts [⟨[⟨some 10, some 8, some 0⟩], [false], 1⟩]
    ⟨some 5, none, none⟩ 1 1 ⟨10, 8, 0⟩
    (by decide) (by decide) (by decide) (by decide) (by decide)
    (Or.inl ⟨5, rfl, by decide⟩)

/-- C7 (counterexample evaluation): with `bmaj = 20`, `bmin = 20` and an
explicit `bpa = 45` supplied, against a largest native beam of `(10, 8, 30)`,
the constructed target beam has position angle `0`, not the supplied `45`:
the code never reads the value of a supplied `bpa` (lines 278-281 overwrite
it), contradicting the CLI's own help text for `--bpa`. -/
theorem claim7_explicit_bpa_discarded :
    new_beam_of ⟨some 20, some 20, some 45⟩ ⟨10, 8, 30⟩ =
      Except.ok ⟨20, 20, 0⟩ := by
  rfl

/-- The result of `os.stat` on an existing path: identity (inode, device)
and whether the path is a named pipe. -/
structure FileStat where
  ino : Nat
  dev : Nat
  isFifo : Bool
deriving DecidableEq, Repr

/-- The file-system state seen by `copyfile`: `stat` is `none` when `os.stat`
raises `OSError` (file most likely does not exist), `contents` are the bytes
`open(..., 'rb')` would read, plus symlink structure. -/
structure FS where
  stat : String → Option FileStat
  contents : String → Option (List Nat)
  islink : String → Bool
  readlink : String → String

/-- Embedding of `_samefile(src, dst)` (lines 48-54) on Unix:
`os.path.samefile` compares `(st_ino, st_dev)` of both paths and any
`OSError` (either path missing) is caught and yields `False`. -/
def samefile (fs : FS) (src dst : String) : Bool :=
  match fs.stat src, fs.stat dst with
  | some a, some b => a.ino == b.ino && a.dev == b.dev
  | _, _ => false

/-- The errors `copyfile` can raise: `SameFileError`, `SpecialFileError` for
a named pipe, and an uncaught `OSError` from opening the source. -/
inductive CopyErr where
  | sameFileError
  | specialFileError (path : String)
  | osError
deriving DecidableEq, Repr

/-- The named-pipe test of `copyfile`'s loop body (lines 67-76): a stat
failure is passed over, otherwise `stat.S_ISFIFO(st.st_mode)` is checked. -/
def isFifoAt (fs : FS) (p : String) : Bool :=
  match fs.stat p with
  | some st => st.isFifo
  | none => false

/-- Writing `data` as the new contents of `dst` (the `open(dst, 'wb')` +
`copyfileobj` path of lines 82-83). -/
def writeContents (fs : FS) (dst : String) (data : List Nat) : FS :=
  { fs with contents := fun p => if p = dst then some data else fs.contents p }

/-- `os.symlink(os.readlink(src), dst)` (line 79). -/
def symlinkTo (fs : FS) (dst target : String) : FS :=
  { fs with
    islink := fun p => if p = dst then true else fs.islink p
    readlink := fun p => if p = dst then target else fs.readlink p }

/-- Embedding of `copyfile(src, dst, follow_symlinks)` (lines 57-84) as a
state transformer returning the file system after the call together with the
raised error, if any. The checks run in source order: the same-file check
first, then the named-pipe checks on `src` and `dst`, and only then is any
file opened — so an error from those checks leaves the file system
untouched. -/
def copyfile (fs : FS) (src dst : String) (follow_symlinks : Bool) :
    FS × Option CopyErr :=
  if samefile fs src dst then (fs, some CopyErr.sameFileError)
  else if isFifoAt fs src then (fs, some (CopyErr.specialFileError src))
  else if isFifoAt fs dst then (fs, some (CopyErr.specialFileError dst))
  else if !follow_symlinks && fs.islink src then (symlinkTo fs dst (fs.readlink src), none)
  else
    match fs.contents src with
    | none => (fs, some CopyErr.osError)
    | some data => (writeContents fs dst data, none)

/-- C8: `copyfile` raises `SameFileError` exactly when `src` and `dst` refer
to the same file, and in that case the file system — in particular the
destination's contents — is unchanged, because the check precedes every open
and write. -/
theorem claim8_samefile_aborts_unchanged (fs : FS) (src dst : String)
    (follow_symlinks : Bool) :
    ((copyfile fs src dst follow_symlinks).2 = some CopyErr.sameFileError ↔
        samefile fs src dst = true) ∧
      (samefile fs src dst = true →
        copyfile fs src dst follow_symlinks = (fs, some CopyErr.sameFileError)) := by
  by_cases h : samefile fs src dst = true
  · refine ⟨⟨fun _ => h, fun _ => ?_⟩, fun _ => ?_⟩ <;> simp [copyfile, h]
  · have hno : (copyfile fs src dst follow_symlinks).2 ≠ some CopyErr.sameFileError := by
      unfold copyfile
      by_cases h2 : isFifoAt fs src = true <;>
        by_cases h3 : isFifoAt fs dst = true <;>
        by_cases h4 : (!follow_symlinks && fs.islink src) = true <;>
        cases hcs : fs.contents src <;>
        simp [h, h2, h3, h4, hcs]
    exact ⟨⟨fun hc => absurd hc hno, fun hc => absurd hc h⟩, fun hc => absurd hc h⟩

/-- Witness for C8: a file system in which every path resolves to the same
inode and device; copying a path onto another is refused unchanged. -/
theorem claim8_witness :
    copyfile
        ⟨fun _ => some ⟨1, 1, false⟩, fun _ => some [7], fun _ => false, fun _ => "t"⟩
        "a" "b" true =
      (⟨fun _ => some ⟨1, 1, false⟩, fun _ => some [7], fun _ => false, fun _ => "t"⟩,
        some CopyErr.sameFileError) :=
  (claim8_samefile_aborts_unchanged
    ⟨fun _ => some ⟨1, 1, false⟩, fun _ => some [7], fun _ => false, fun _ => "t"⟩
    "a" "b" true).2 rfl

end Beamcon
